import Mathlib

/-!
Verification of the comment-stripping scanner of `code-cleaner.py`.

The Python function `remove_comments_safely(content, suffix)` is a single
while-loop over an index `i` into `content`, with four mode flags
(`in_string`, `in_block_comment`, `in_line_comment`) plus the current string
delimiter `string_char`.  We embed it as a structurally recursive function
`scanGo` over a fuel parameter; each loop iteration consumes one unit of
fuel and strictly increases `i`, so fuel `content.length` is always enough
(`remove_comments_safely` supplies exactly that).  `scanFrom` is the
canonical fuel instantiation, with proved step equations mirroring each
branch of the Python loop body.
-/

namespace CodeCleaner

/-- The single-quote character, written numerically. -/
def squote : Char := Char.ofNat 39

/-- The backquote character, written numerically. -/
def backquote : Char := Char.ofNat 96

/-- Suffixes treated with C-like comment syntax (source lines 81-83). -/
def cLikeExts : List String :=
  [".js", ".ts", ".jsx", ".tsx", ".java", ".c", ".cpp", ".h", ".hpp", ".go", ".php"]

/-- Suffixes treated with markup comment syntax (source line 99). -/
def markupExts : List String := [".html", ".htm"]

/-- `content[i]` of the Python source; the loop only reads it for `i` in range,
so the default is never observable from `remove_comments_safely`. -/
def charAt (C : List Char) (i : Nat) : Char := C.getD i ' '

/-- Python `content[i - 1]` (source line 64): for `i = 0` Python's negative
indexing yields the last character of the (nonempty) string. -/
def prevChar (C : List Char) (i : Nat) : Char :=
  if i = 0 then C.getLastD ' ' else charAt C (i - 1)

/-- Fuel-bounded kernel of Python `content.find(pat, j)`: least `j' ≥ j` at
which `pat` occurs in `C`, `none` standing for Python's `-1`. -/
def findFrom (C pat : List Char) : Nat → Nat → Option Nat
  | 0, _ => none
  | fuel + 1, j =>
    if j < C.length then
      if (C.drop j).take pat.length = pat then some j
      else findFrom C pat fuel (j + 1)
    else none

/-- Python `content.find(pat, j)` (canonical fuel: `C.length` always suffices). -/
def strFind (C pat : List Char) (j : Nat) : Option Nat :=
  findFrom C pat C.length j

/-- The scanner's mutable mode flags (source lines 38-41). -/
structure ScanState where
  in_string : Bool
  string_char : Char
  in_block_comment : Bool
  in_line_comment : Bool
deriving DecidableEq

/-- The state at loop entry: all flags false, `string_char` not yet meaningful
(Python initializes it to the empty string; it is only read while
`in_string` is set, which always assigns it first). -/
def initState : ScanState := ⟨false, ' ', false, false⟩

/-- The while-loop of `remove_comments_safely` (source lines 43-107), one
fuel unit per iteration.  Branches, in source order:
line comment (47-52), block comment (54-60), string (62-67), string open
(69-74), python `#` (76-79), c-like `//` and `/*` (81-91), css `/*` (93-97),
markup `<!-- -->` (99-104), default emit (106-107). -/
def scanGo (suffix : String) (C : List Char) : Nat → Nat → ScanState → List Char
  | 0, _, _ => []
  | fuel + 1, i, s =>
    if i < C.length then
      if s.in_line_comment then
        if charAt C i = '\n' then
          charAt C i :: scanGo suffix C fuel (i + 1) { s with in_line_comment := false }
        else
          scanGo suffix C fuel (i + 1) s
      else if s.in_block_comment then
        if charAt C i = '*' ∧ C[i + 1]? = some '/' then
          scanGo suffix C fuel (i + 2) { s with in_block_comment := false }
        else
          scanGo suffix C fuel (i + 1) s
      else if s.in_string then
        charAt C i ::
          (if charAt C i = s.string_char ∧ prevChar C i ≠ '\\' then
            scanGo suffix C fuel (i + 1) { s with in_string := false }
          else
            scanGo suffix C fuel (i + 1) s)
      else if charAt C i = squote ∨ charAt C i = '"' ∨ charAt C i = backquote then
        charAt C i ::
          scanGo suffix C fuel (i + 1) { s with in_string := true, string_char := charAt C i }
      else if suffix = ".py" ∧ charAt C i = '#' then
        scanGo suffix C fuel (i + 1) { s with in_line_comment := true }
      else if suffix ∈ cLikeExts ∧ charAt C i = '/' ∧ C[i + 1]? = some '/' then
        scanGo suffix C fuel (i + 2) { s with in_line_comment := true }
      else if suffix ∈ cLikeExts ∧ charAt C i = '/' ∧ C[i + 1]? = some '*' then
        scanGo suffix C fuel (i + 2) { s with in_block_comment := true }
      else if suffix = ".css" ∧ charAt C i = '/' ∧ C[i + 1]? = some '*' then
        scanGo suffix C fuel (i + 2) { s with in_block_comment := true }
      else if suffix ∈ markupExts ∧ (C.drop i).take 4 = ['<', '!', '-', '-'] then
        match strFind C ['-', '-', '>'] (i + 4) with
        | some e => scanGo suffix C fuel (e + 3) s
        | none => charAt C i :: scanGo suffix C fuel (i + 1) s
      else
        charAt C i :: scanGo suffix C fuel (i + 1) s
    else []

/-- Number of iterations the while-loop of `remove_comments_safely` performs
from position `i` in state `s`: the same branch structure as `scanGo`, with
every branch counted as one iteration. -/
def scanSteps (suffix : String) (C : List Char) : Nat → Nat → ScanState → Nat
  | 0, _, _ => 0
  | fuel + 1, i, s =>
    if i < C.length then
      1 +
        (if s.in_line_comment then
          scanSteps suffix C fuel (i + 1)
            (if charAt C i = '\n' then { s with in_line_comment := false } else s)
        else if s.in_block_comment then
          if charAt C i = '*' ∧ C[i + 1]? = some '/' then
            scanSteps suffix C fuel (i + 2) { s with in_block_comment := false }
          else
            scanSteps suffix C fuel (i + 1) s
        else if s.in_string then
          scanSteps suffix C fuel (i + 1)
            (if charAt C i = s.string_char ∧ prevChar C i ≠ '\\' then
              { s with in_string := false }
            else s)
        else if charAt C i = squote ∨ charAt C i = '"' ∨ charAt C i = backquote then
          scanSteps suffix C fuel (i + 1) { s with in_string := true, string_char := charAt C i }
        else if suffix = ".py" ∧ charAt C i = '#' then
          scanSteps suffix C fuel (i + 1) { s with in_line_comment := true }
        else if suffix ∈ cLikeExts ∧ charAt C i = '/' ∧ C[i + 1]? = some '/' then
          scanSteps suffix C fuel (i + 2) { s with in_line_comment := true }
        else if suffix ∈ cLikeExts ∧ charAt C i = '/' ∧ C[i + 1]? = some '*' then
          scanSteps suffix C fuel (i + 2) { s with in_block_comment := true }
        else if suffix = ".css" ∧ charAt C i = '/' ∧ C[i + 1]? = some '*' then
          scanSteps suffix C fuel (i + 2) { s with in_block_comment := true }
        else if suffix ∈ markupExts ∧ (C.drop i).take 4 = ['<', '!', '-', '-'] then
          match strFind C ['-', '-', '>'] (i + 4) with
          | some e => scanSteps suffix C fuel (e + 3) s
          | none => scanSteps suffix C fuel (i + 1) s
        else
          scanSteps suffix C fuel (i + 1) s)
    else 0

/-- `remove_comments_safely(content, suffix)` (source lines 33-109). -/
def remove_comments_safely (content : List Char) (suffix : String) : List Char :=
  scanGo suffix content content.length 0 initState

/-- The scan from position `i` in state `s`, with canonical (always
sufficient) fuel. -/
def scanFrom (suffix : String) (C : List Char) (i : Nat) (s : ScanState) : List Char :=
  scanGo suffix C C.length i s

end CodeCleaner

namespace CodeCleaner

/-! ### Generic list facts used to reason about the index-based loop -/

theorem lt_length_of_drop {C : List Char} {i : Nat} {a : Char} {t : List Char}
    (h : C.drop i = a :: t) : i < C.length := by
  by_contra hn
  rw [List.drop_eq_nil_of_le (by omega)] at h
  exact List.noConfusion h

theorem drop_cons_self (C : List Char) (i : Nat) (h : i < C.length) :
    C.drop i = charAt C i :: C.drop (i + 1) := by
  rw [List.drop_eq_getElem_cons h]
  rw [charAt, List.getD_eq_getElem?_getD, List.getElem?_eq_getElem h]
  rfl

theorem charAt_of_drop {C : List Char} {i : Nat} {a : Char} {t : List Char}
    (h : C.drop i = a :: t) : charAt C i = a := by
  have hi := lt_length_of_drop h
  rw [drop_cons_self C i hi] at h
  exact (List.cons.injEq _ _ _ _ ▸ h).1

theorem drop_succ_of_drop {C : List Char} {i : Nat} {a : Char} {t : List Char}
    (h : C.drop i = a :: t) : C.drop (i + 1) = t := by
  have hi := lt_length_of_drop h
  rw [drop_cons_self C i hi] at h
  exact (List.cons.injEq _ _ _ _ ▸ h).2

theorem getElem?_eq_head_drop (C : List Char) (i : Nat) : C[i]? = (C.drop i).head? := by
  induction C generalizing i with
  | nil => simp
  | cons a t ih =>
    cases i with
    | zero => simp
    | succ k =>
      rw [List.getElem?_cons_succ, List.drop_succ_cons]
      exact ih k

theorem drop_sublist_drop (C : List Char) {i k : Nat} (h : i ≤ k) :
    List.Sublist (C.drop k) (C.drop i) := by
  have : C.drop k = (C.drop i).drop (k - i) := by
    rw [List.drop_drop]
    congr 1
    omega
  rw [this]
  exact List.drop_sublist _ _

/-! ### Exhausted input and fuel irrelevance -/

theorem scanGo_stop (suffix : String) (C : List Char) (fuel i : Nat) (s : ScanState)
    (h : C.length ≤ i) : scanGo suffix C fuel i s = [] := by
  cases fuel with
  | zero => rfl
  | succ n =>
    simp only [scanGo]
    rw [if_neg (by omega)]

theorem findFrom_irrel (C pat : List Char) :
    ∀ fuel fuel' j, C.length ≤ j + fuel → C.length ≤ j + fuel' →
      findFrom C pat fuel j = findFrom C pat fuel' j := by
  intro fuel
  induction fuel with
  | zero =>
    intro fuel' j h h'
    cases fuel' with
    | zero => rfl
    | succ m =>
      simp only [findFrom]
      rw [if_neg (by omega)]
  | succ n ih =>
    intro fuel' j h h'
    cases fuel' with
    | zero =>
      simp only [findFrom]
      rw [if_neg (by omega)]
    | succ m =>
      simp only [findFrom]
      by_cases hj : j < C.length
      · rw [if_pos hj, if_pos hj]
        by_cases hmatch : (C.drop j).take pat.length = pat
        · rw [if_pos hmatch, if_pos hmatch]
        · rw [if_neg hmatch, if_neg hmatch]
          exact ih m (j + 1) (by omega) (by omega)
      · rw [if_neg hj, if_neg hj]

theorem strFind_step (C pat : List Char) (j : Nat) :
    strFind C pat j =
      if j < C.length then
        if (C.drop j).take pat.length = pat then some j else strFind C pat (j + 1)
      else none := by
  by_cases hj : j < C.length
  · obtain ⟨m, hm⟩ : ∃ m, C.length = m + 1 := ⟨C.length - 1, by omega⟩
    rw [if_pos hj]
    have h1 : strFind C pat j = findFrom C pat (m + 1) j := by
      unfold strFind
      rw [hm]
    rw [h1]
    simp only [findFrom]
    rw [if_pos hj]
    by_cases hmatch : (C.drop j).take pat.length = pat
    · rw [if_pos hmatch, if_pos hmatch]
    · rw [if_neg hmatch, if_neg hmatch]
      rw [findFrom_irrel C pat m C.length (j + 1) (by omega) (by omega)]
      rfl
  · rw [if_neg hj]
    cases hC : C.length with
    | zero =>
      unfold strFind
      rw [hC]
      rfl
    | succ m =>
      unfold strFind
      rw [hC]
      simp only [findFrom]
      rw [if_neg hj]

theorem strFind_ge_aux (C pat : List Char) :
    ∀ n j e, C.length - j ≤ n → strFind C pat j = some e → j ≤ e := by
  intro n
  induction n with
  | zero =>
    intro j e h hfind
    rw [strFind_step, if_neg (by omega)] at hfind
    exact Option.noConfusion hfind
  | succ m ih =>
    intro j e h hfind
    rw [strFind_step] at hfind
    by_cases hj : j < C.length
    · rw [if_pos hj] at hfind
      by_cases hmatch : (C.drop j).take pat.length = pat
      · rw [if_pos hmatch] at hfind
        injection hfind with he
        omega
      · rw [if_neg hmatch] at hfind
        have := ih (j + 1) e (by omega) hfind
        omega
    · rw [if_neg hj] at hfind
      exact Option.noConfusion hfind

theorem strFind_ge {C pat : List Char} {j e : Nat}
    (h : strFind C pat j = some e) : j ≤ e :=
  strFind_ge_aux C pat (C.length - j) j e (by omega) h

theorem bool_ne_true {b : Bool} (h : b = false) : ¬ b = true := by simp [h]

/-! ### One unfolding lemma per branch of the loop body -/

theorem scanGo_succ_line_nl (suffix : String) (C : List Char) (n i : Nat) (s : ScanState)
    (hi : i < C.length) (h1 : s.in_line_comment = true) (h2 : charAt C i = '\n') :
    scanGo suffix C (n + 1) i s
      = charAt C i :: scanGo suffix C n (i + 1) { s with in_line_comment := false } := by
  rw [scanGo.eq_2, if_pos hi, if_pos h1, if_pos h2]

theorem scanGo_succ_line_skip (suffix : String) (C : List Char) (n i : Nat) (s : ScanState)
    (hi : i < C.length) (h1 : s.in_line_comment = true) (h2 : ¬ charAt C i = '\n') :
    scanGo suffix C (n + 1) i s = scanGo suffix C n (i + 1) s := by
  rw [scanGo.eq_2, if_pos hi, if_pos h1, if_neg h2]

theorem scanGo_succ_block_close (suffix : String) (C : List Char) (n i : Nat) (s : ScanState)
    (hi : i < C.length) (h1 : s.in_line_comment = false) (h2 : s.in_block_comment = true)
    (h3 : charAt C i = '*' ∧ C[i + 1]? = some '/') :
    scanGo suffix C (n + 1) i s
      = scanGo suffix C n (i + 2) { s with in_block_comment := false } := by
  rw [scanGo.eq_2, if_pos hi, if_neg (bool_ne_true h1), if_pos h2, if_pos h3]

theorem scanGo_succ_block_skip (suffix : String) (C : List Char) (n i : Nat) (s : ScanState)
    (hi : i < C.length) (h1 : s.in_line_comment = false) (h2 : s.in_block_comment = true)
    (h3 : ¬ (charAt C i = '*' ∧ C[i + 1]? = some '/')) :
    scanGo suffix C (n + 1) i s = scanGo suffix C n (i + 1) s := by
  rw [scanGo.eq_2, if_pos hi, if_neg (bool_ne_true h1), if_pos h2, if_neg h3]

theorem scanGo_succ_string (suffix : String) (C : List Char) (n i : Nat) (s : ScanState)
    (hi : i < C.length) (h1 : s.in_line_comment = false) (h2 : s.in_block_comment = false)
    (h3 : s.in_string = true) :
    scanGo suffix C (n + 1) i s
      = charAt C i ::
          (if charAt C i = s.string_char ∧ prevChar C i ≠ '\\' then
            scanGo suffix C n (i + 1) { s with in_string := false }
          else
            scanGo suffix C n (i + 1) s) := by
  rw [scanGo.eq_2, if_pos hi, if_neg (bool_ne_true h1), if_neg (bool_ne_true h2), if_pos h3]

theorem scanGo_succ_quote (suffix : String) (C : List Char) (n i : Nat) (s : ScanState)
    (hi : i < C.length) (h1 : s.in_line_comment = false) (h2 : s.in_block_comment = false)
    (h3 : s.in_string = false)
    (h4 : charAt C i = squote ∨ charAt C i = '"' ∨ charAt C i = backquote) :
    scanGo suffix C (n + 1) i s
      = charAt C i ::
          scanGo suffix C n (i + 1) { s with in_string := true, string_char := charAt C i } := by
  rw [scanGo.eq_2, if_pos hi, if_neg (bool_ne_true h1), if_neg (bool_ne_true h2),
    if_neg (bool_ne_true h3), if_pos h4]

theorem scanGo_succ_py_hash (suffix : String) (C : List Char) (n i : Nat) (s : ScanState)
    (hi : i < C.length) (h1 : s.in_line_comment = false) (h2 : s.in_block_comment = false)
    (h3 : s.in_string = false)
    (h4 : ¬ (charAt C i = squote ∨ charAt C i = '"' ∨ charAt C i = backquote))
    (h5 : suffix = ".py" ∧ charAt C i = '#') :
    scanGo suffix C (n + 1) i s
      = scanGo suffix C n (i + 1) { s with in_line_comment := true } := by
  rw [scanGo.eq_2, if_pos hi, if_neg (bool_ne_true h1), if_neg (bool_ne_true h2),
    if_neg (bool_ne_true h3), if_neg h4, if_pos h5]

theorem scanGo_succ_clike_line (suffix : String) (C : List Char) (n i : Nat) (s : ScanState)
    (hi : i < C.length) (h1 : s.in_line_comment = false) (h2 : s.in_block_comment = false)
    (h3 : s.in_string = false)
    (h4 : ¬ (charAt C i = squote ∨ charAt C i = '"' ∨ charAt C i = backquote))
    (h5 : ¬ (suffix = ".py" ∧ charAt C i = '#'))
    (h6 : suffix ∈ cLikeExts ∧ charAt C i = '/' ∧ C[i + 1]? = some '/') :
    scanGo suffix C (n + 1) i s
      = scanGo suffix C n (i + 2) { s with in_line_comment := true } := by
  rw [scanGo.eq_2, if_pos hi, if_neg (bool_ne_true h1), if_neg (bool_ne_true h2),
    if_neg (bool_ne_true h3), if_neg h4, if_neg h5, if_pos h6]

theorem scanGo_succ_clike_block (suffix : String) (C : List Char) (n i : Nat) (s : ScanState)
    (hi : i < C.length) (h1 : s.in_line_comment = false) (h2 : s.in_block_comment = false)
    (h3 : s.in_string = false)
    (h4 : ¬ (charAt C i = squote ∨ charAt C i = '"' ∨ charAt C i = backquote))
    (h5 : ¬ (suffix = ".py" ∧ charAt C i = '#'))
    (h6 : ¬ (suffix ∈ cLikeExts ∧ charAt C i = '/' ∧ C[i + 1]? = some '/'))
    (h7 : suffix ∈ cLikeExts ∧ charAt C i = '/' ∧ C[i + 1]? = some '*') :
    scanGo suffix C (n + 1) i s
      = scanGo suffix C n (i + 2) { s with in_block_comment := true } := by
  rw [scanGo.eq_2, if_pos hi, if_neg (bool_ne_true h1), if_neg (bool_ne_true h2),
    if_neg (bool_ne_true h3), if_neg h4, if_neg h5, if_neg h6, if_pos h7]

theorem scanGo_succ_css_block (suffix : String) (C : List Char) (n i : Nat) (s : ScanState)
    (hi : i < C.length) (h1 : s.in_line_comment = false) (h2 : s.in_block_comment = false)
    (h3 : s.in_string = false)
    (h4 : ¬ (charAt C i = squote ∨ charAt C i = '"' ∨ charAt C i = backquote))
    (h5 : ¬ (suffix = ".py" ∧ charAt C i = '#'))
    (h6 : ¬ (suffix ∈ cLikeExts ∧ charAt C i = '/' ∧ C[i + 1]? = some '/'))
    (h7 : ¬ (suffix ∈ cLikeExts ∧ charAt C i = '/' ∧ C[i + 1]? = some '*'))
    (h8 : suffix = ".css" ∧ charAt C i = '/' ∧ C[i + 1]? = some '*') :
    scanGo suffix C (n + 1) i s
      = scanGo suffix C n (i + 2) { s with in_block_comment := true } := by
  rw [scanGo.eq_2, if_pos hi, if_neg (bool_ne_true h1), if_neg (bool_ne_true h2),
    if_neg (bool_ne_true h3), if_neg h4, if_neg h5, if_neg h6, if_neg h7, if_pos h8]

theorem scanGo_succ_markup_found (suffix : String) (C : List Char) (n i : Nat) (s : ScanState)
    (e : Nat)
    (hi : i < C.length) (h1 : s.in_line_comment = false) (h2 : s.in_block_comment = false)
    (h3 : s.in_string = false)
    (h4 : ¬ (charAt C i = squote ∨ charAt C i = '"' ∨ charAt C i = backquote))
    (h5 : ¬ (suffix = ".py" ∧ charAt C i = '#'))
    (h6 : ¬ (suffix ∈ cLikeExts ∧ charAt C i = '/' ∧ C[i + 1]? = some '/'))
    (h7 : ¬ (suffix ∈ cLikeExts ∧ charAt C i = '/' ∧ C[i + 1]? = some '*'))
    (h8 : ¬ (suffix = ".css" ∧ charAt C i = '/' ∧ C[i + 1]? = some '*'))
    (h9 : suffix ∈ markupExts ∧ (C.drop i).take 4 = ['<', '!', '-', '-'])
    (hfind : strFind C ['-', '-', '>'] (i + 4) = some e) :
    scanGo suffix C (n + 1) i s = scanGo suffix C n (e + 3) s := by
  rw [scanGo.eq_2, if_pos hi, if_neg (bool_ne_true h1), if_neg (bool_ne_true h2),
    if_neg (bool_ne_true h3), if_neg h4, if_neg h5, if_neg h6, if_neg h7, if_neg h8,
    if_pos h9, hfind]

theorem scanGo_succ_markup_none (suffix : String) (C : List Char) (n i : Nat) (s : ScanState)
    (hi : i < C.length) (h1 : s.in_line_comment = false) (h2 : s.in_block_comment = false)
    (h3 : s.in_string = false)
    (h4 : ¬ (charAt C i = squote ∨ charAt C i = '"' ∨ charAt C i = backquote))
    (h5 : ¬ (suffix = ".py" ∧ charAt C i = '#'))
    (h6 : ¬ (suffix ∈ cLikeExts ∧ charAt C i = '/' ∧ C[i + 1]? = some '/'))
    (h7 : ¬ (suffix ∈ cLikeExts ∧ charAt C i = '/' ∧ C[i + 1]? = some '*'))
    (h8 : ¬ (suffix = ".css" ∧ charAt C i = '/' ∧ C[i + 1]? = some '*'))
    (h9 : suffix ∈ markupExts ∧ (C.drop i).take 4 = ['<', '!', '-', '-'])
    (hfind : strFind C ['-', '-', '>'] (i + 4) = none) :
    scanGo suffix C (n + 1) i s = charAt C i :: scanGo suffix C n (i + 1) s := by
  rw [scanGo.eq_2, if_pos hi, if_neg (bool_ne_true h1), if_neg (bool_ne_true h2),
    if_neg (bool_ne_true h3), if_neg h4, if_neg h5, if_neg h6, if_neg h7, if_neg h8,
    if_pos h9, hfind]

theorem scanGo_succ_default (suffix : String) (C : List Char) (n i : Nat) (s : ScanState)
    (hi : i < C.length) (h1 : s.in_line_comment = false) (h2 : s.in_block_comment = false)
    (h3 : s.in_string = false)
    (h4 : ¬ (charAt C i = squote ∨ charAt C i = '"' ∨ charAt C i = backquote))
    (h5 : ¬ (suffix = ".py" ∧ charAt C i = '#'))
    (h6 : ¬ (suffix ∈ cLikeExts ∧ charAt C i = '/' ∧ C[i + 1]? = some '/'))
    (h7 : ¬ (suffix ∈ cLikeExts ∧ charAt C i = '/' ∧ C[i + 1]? = some '*'))
    (h8 : ¬ (suffix = ".css" ∧ charAt C i = '/' ∧ C[i + 1]? = some '*'))
    (h9 : ¬ (suffix ∈ markupExts ∧ (C.drop i).take 4 = ['<', '!', '-', '-'])) :
    scanGo suffix C (n + 1) i s = charAt C i :: scanGo suffix C n (i + 1) s := by
  rw [scanGo.eq_2, if_pos hi, if_neg (bool_ne_true h1), if_neg (bool_ne_true h2),
    if_neg (bool_ne_true h3), if_neg h4, if_neg h5, if_neg h6, if_neg h7, if_neg h8,
    if_neg h9]

theorem scanGo_irrel (suffix : String) (C : List Char) :
    ∀ fuel fuel' i s, C.length ≤ i + fuel → C.length ≤ i + fuel' →
      scanGo suffix C fuel i s = scanGo suffix C fuel' i s := by
  intro fuel
  induction fuel with
  | zero =>
    intro fuel' i s h h'
    rw [scanGo_stop suffix C 0 i s (by omega), scanGo_stop suffix C fuel' i s (by omega)]
  | succ n ih =>
    intro fuel' i s h h'
    by_cases hi : i < C.length
    case neg =>
      rw [scanGo_stop _ _ _ _ _ (by omega), scanGo_stop _ _ _ _ _ (by omega)]
    obtain ⟨m, rfl⟩ : ∃ m, fuel' = m + 1 := ⟨fuel' - 1, by omega⟩
    have IH : ∀ k s', i < k → scanGo suffix C n k s' = scanGo suffix C m k s' :=
      fun k s' hk => ih m k s' (by omega) (by omega)
    by_cases h1 : s.in_line_comment = true
    · by_cases h2 : charAt C i = '\n'
      · rw [scanGo_succ_line_nl suffix C n i s hi h1 h2,
          scanGo_succ_line_nl suffix C m i s hi h1 h2]
        exact congrArg _ (IH _ _ (by omega))
      · rw [scanGo_succ_line_skip suffix C n i s hi h1 h2,
          scanGo_succ_line_skip suffix C m i s hi h1 h2]
        exact IH _ _ (by omega)
    simp only [Bool.not_eq_true] at h1
    by_cases h2 : s.in_block_comment = true
    · by_cases h3 : charAt C i = '*' ∧ C[i + 1]? = some '/'
      · rw [scanGo_succ_block_close suffix C n i s hi h1 h2 h3,
          scanGo_succ_block_close suffix C m i s hi h1 h2 h3]
        exact IH _ _ (by omega)
      · rw [scanGo_succ_block_skip suffix C n i s hi h1 h2 h3,
          scanGo_succ_block_skip suffix C m i s hi h1 h2 h3]
        exact IH _ _ (by omega)
    simp only [Bool.not_eq_true] at h2
    by_cases h3 : s.in_string = true
    · rw [scanGo_succ_string suffix C n i s hi h1 h2 h3,
        scanGo_succ_string suffix C m i s hi h1 h2 h3]
      by_cases h4 : charAt C i = s.string_char ∧ prevChar C i ≠ '\\'
      · rw [if_pos h4, if_pos h4]
        exact congrArg _ (IH _ _ (by omega))
      · rw [if_neg h4, if_neg h4]
        exact congrArg _ (IH _ _ (by omega))
    simp only [Bool.not_eq_true] at h3
    by_cases h4 : charAt C i = squote ∨ charAt C i = '"' ∨ charAt C i = backquote
    · rw [scanGo_succ_quote suffix C n i s hi h1 h2 h3 h4,
        scanGo_succ_quote suffix C m i s hi h1 h2 h3 h4]
      exact congrArg _ (IH _ _ (by omega))
    by_cases h5 : suffix = ".py" ∧ charAt C i = '#'
    · rw [scanGo_succ_py_hash suffix C n i s hi h1 h2 h3 h4 h5,
        scanGo_succ_py_hash suffix C m i s hi h1 h2 h3 h4 h5]
      exact IH _ _ (by omega)
    by_cases h6 : suffix ∈ cLikeExts ∧ charAt C i = '/' ∧ C[i + 1]? = some '/'
    · rw [scanGo_succ_clike_line suffix C n i s hi h1 h2 h3 h4 h5 h6,
        scanGo_succ_clike_line suffix C m i s hi h1 h2 h3 h4 h5 h6]
      exact IH _ _ (by omega)
    by_cases h7 : suffix ∈ cLikeExts ∧ charAt C i = '/' ∧ C[i + 1]? = some '*'
    · rw [scanGo_succ_clike_block suffix C n i s hi h1 h2 h3 h4 h5 h6 h7,
        scanGo_succ_clike_block suffix C m i s hi h1 h2 h3 h4 h5 h6 h7]
      exact IH _ _ (by omega)
    by_cases h8 : suffix = ".css" ∧ charAt C i = '/' ∧ C[i + 1]? = some '*'
    · rw [scanGo_succ_css_block suffix C n i s hi h1 h2 h3 h4 h5 h6 h7 h8,
        scanGo_succ_css_block suffix C m i s hi h1 h2 h3 h4 h5 h6 h7 h8]
      exact IH _ _ (by omega)
    by_cases h9 : suffix ∈ markupExts ∧ (C.drop i).take 4 = ['<', '!', '-', '-']
    · cases hfind : strFind C ['-', '-', '>'] (i + 4) with
      | some e =>
        rw [scanGo_succ_markup_found suffix C n i s e hi h1 h2 h3 h4 h5 h6 h7 h8 h9 hfind,
          scanGo_succ_markup_found suffix C m i s e hi h1 h2 h3 h4 h5 h6 h7 h8 h9 hfind]
        have hge := strFind_ge hfind
        exact IH _ _ (by omega)
      | none =>
        rw [scanGo_succ_markup_none suffix C n i s hi h1 h2 h3 h4 h5 h6 h7 h8 h9 hfind,
          scanGo_succ_markup_none suffix C m i s hi h1 h2 h3 h4 h5 h6 h7 h8 h9 hfind]
        exact congrArg _ (IH _ _ (by omega))
    · rw [scanGo_succ_default suffix C n i s hi h1 h2 h3 h4 h5 h6 h7 h8 h9,
        scanGo_succ_default suffix C m i s hi h1 h2 h3 h4 h5 h6 h7 h8 h9]
      exact congrArg _ (IH _ _ (by omega))

/-! ### Step equations for the canonical-fuel scan -/

theorem scanFrom_stop (suffix : String) (C : List Char) (i : Nat) (s : ScanState)
    (h : C.length ≤ i) : scanFrom suffix C i s = [] :=
  scanGo_stop suffix C C.length i s h

theorem scanFrom_eq_succ (suffix : String) (C : List Char) (i : Nat) (s : ScanState)
    {m : Nat} (hm : C.length = m + 1) :
    scanFrom suffix C i s = scanGo suffix C (m + 1) i s := by
  unfold scanFrom
  rw [hm]

theorem scanGo_pred (suffix : String) (C : List Char) (m k : Nat) (s' : ScanState)
    (hm : C.length = m + 1) (hk : 1 ≤ k) :
    scanGo suffix C m k s' = scanFrom suffix C k s' := by
  unfold scanFrom
  exact scanGo_irrel suffix C m C.length k s' (by omega) (by omega)

theorem scanFrom_line_nl (suffix : String) (C : List Char) (i : Nat) (s : ScanState)
    (hi : i < C.length) (h1 : s.in_line_comment = true) (h2 : charAt C i = '\n') :
    scanFrom suffix C i s
      = charAt C i :: scanFrom suffix C (i + 1) { s with in_line_comment := false } := by
  obtain ⟨m, hm⟩ : ∃ m, C.length = m + 1 := ⟨C.length - 1, by omega⟩
  rw [scanFrom_eq_succ suffix C i s hm, scanGo_succ_line_nl suffix C m i s hi h1 h2,
    scanGo_pred suffix C m (i + 1) _ hm (by omega)]

theorem scanFrom_line_skip (suffix : String) (C : List Char) (i : Nat) (s : ScanState)
    (hi : i < C.length) (h1 : s.in_line_comment = true) (h2 : ¬ charAt C i = '\n') :
    scanFrom suffix C i s = scanFrom suffix C (i + 1) s := by
  obtain ⟨m, hm⟩ : ∃ m, C.length = m + 1 := ⟨C.length - 1, by omega⟩
  rw [scanFrom_eq_succ suffix C i s hm, scanGo_succ_line_skip suffix C m i s hi h1 h2,
    scanGo_pred suffix C m (i + 1) _ hm (by omega)]

theorem scanFrom_block_close (suffix : String) (C : List Char) (i : Nat) (s : ScanState)
    (hi : i < C.length) (h1 : s.in_line_comment = false) (h2 : s.in_block_comment = true)
    (h3 : charAt C i = '*' ∧ C[i + 1]? = some '/') :
    scanFrom suffix C i s
      = scanFrom suffix C (i + 2) { s with in_block_comment := false } := by
  obtain ⟨m, hm⟩ : ∃ m, C.length = m + 1 := ⟨C.length - 1, by omega⟩
  rw [scanFrom_eq_succ suffix C i s hm, scanGo_succ_block_close suffix C m i s hi h1 h2 h3,
    scanGo_pred suffix C m (i + 2) _ hm (by omega)]

theorem scanFrom_block_skip (suffix : String) (C : List Char) (i : Nat) (s : ScanState)
    (hi : i < C.length) (h1 : s.in_line_comment = false) (h2 : s.in_block_comment = true)
    (h3 : ¬ (charAt C i = '*' ∧ C[i + 1]? = some '/')) :
    scanFrom suffix C i s = scanFrom suffix C (i + 1) s := by
  obtain ⟨m, hm⟩ : ∃ m, C.length = m + 1 := ⟨C.length - 1, by omega⟩
  rw [scanFrom_eq_succ suffix C i s hm, scanGo_succ_block_skip suffix C m i s hi h1 h2 h3,
    scanGo_pred suffix C m (i + 1) _ hm (by omega)]

theorem scanFrom_string (suffix : String) (C : List Char) (i : Nat) (s : ScanState)
    (hi : i < C.length) (h1 : s.in_line_comment = false) (h2 : s.in_block_comment = false)
    (h3 : s.in_string = true) :
    scanFrom suffix C i s
      = charAt C i ::
          (if charAt C i = s.string_char ∧ prevChar C i ≠ '\\' then
            scanFrom suffix C (i + 1) { s with in_string := false }
          else
            scanFrom suffix C (i + 1) s) := by
  obtain ⟨m, hm⟩ : ∃ m, C.length = m + 1 := ⟨C.length - 1, by omega⟩
  rw [scanFrom_eq_succ suffix C i s hm, scanGo_succ_string suffix C m i s hi h1 h2 h3,
    scanGo_pred suffix C m (i + 1) _ hm (by omega),
    scanGo_pred suffix C m (i + 1) _ hm (by omega)]

theorem scanFrom_quote (suffix : String) (C : List Char) (i : Nat) (s : ScanState)
    (hi : i < C.length) (h1 : s.in_line_comment = false) (h2 : s.in_block_comment = false)
    (h3 : s.in_string = false)
    (h4 : charAt C i = squote ∨ charAt C i = '"' ∨ charAt C i = backquote) :
    scanFrom suffix C i s
      = charAt C i ::
          scanFrom suffix C (i + 1) { s with in_string := true, string_char := charAt C i } := by
  obtain ⟨m, hm⟩ : ∃ m, C.length = m + 1 := ⟨C.length - 1, by omega⟩
  rw [scanFrom_eq_succ suffix C i s hm, scanGo_succ_quote suffix C m i s hi h1 h2 h3 h4,
    scanGo_pred suffix C m (i + 1) _ hm (by omega)]

theorem scanFrom_py_hash (suffix : String) (C : List Char) (i : Nat) (s : ScanState)
    (hi : i < C.length) (h1 : s.in_line_comment = false) (h2 : s.in_block_comment = false)
    (h3 : s.in_string = false)
    (h4 : ¬ (charAt C i = squote ∨ charAt C i = '"' ∨ charAt C i = backquote))
    (h5 : suffix = ".py" ∧ charAt C i = '#') :
    scanFrom suffix C i s = scanFrom suffix C (i + 1) { s with in_line_comment := true } := by
  obtain ⟨m, hm⟩ : ∃ m, C.length = m + 1 := ⟨C.length - 1, by omega⟩
  rw [scanFrom_eq_succ suffix C i s hm, scanGo_succ_py_hash suffix C m i s hi h1 h2 h3 h4 h5,
    scanGo_pred suffix C m (i + 1) _ hm (by omega)]

theorem scanFrom_clike_line (suffix : String) (C : List Char) (i : Nat) (s : ScanState)
    (hi : i < C.length) (h1 : s.in_line_comment = false) (h2 : s.in_block_comment = false)
    (h3 : s.in_string = false)
    (h4 : ¬ (charAt C i = squote ∨ charAt C i = '"' ∨ charAt C i = backquote))
    (h5 : ¬ (suffix = ".py" ∧ charAt C i = '#'))
    (h6 : suffix ∈ cLikeExts ∧ charAt C i = '/' ∧ C[i + 1]? = some '/') :
    scanFrom suffix C i s = scanFrom suffix C (i + 2) { s with in_line_comment := true } := by
  obtain ⟨m, hm⟩ : ∃ m, C.length = m + 1 := ⟨C.length - 1, by omega⟩
  rw [scanFrom_eq_succ suffix C i s hm,
    scanGo_succ_clike_line suffix C m i s hi h1 h2 h3 h4 h5 h6,
    scanGo_pred suffix C m (i + 2) _ hm (by omega)]

theorem scanFrom_clike_block (suffix : String) (C : List Char) (i : Nat) (s : ScanState)
    (hi : i < C.length) (h1 : s.in_line_comment = false) (h2 : s.in_block_comment = false)
    (h3 : s.in_string = false)
    (h4 : ¬ (charAt C i = squote ∨ charAt C i = '"' ∨ charAt C i = backquote))
    (h5 : ¬ (suffix = ".py" ∧ charAt C i = '#'))
    (h6 : ¬ (suffix ∈ cLikeExts ∧ charAt C i = '/' ∧ C[i + 1]? = some '/'))
    (h7 : suffix ∈ cLikeExts ∧ charAt C i = '/' ∧ C[i + 1]? = some '*') :
    scanFrom suffix C i s = scanFrom suffix C (i + 2) { s with in_block_comment := true } := by
  obtain ⟨m, hm⟩ : ∃ m, C.length = m + 1 := ⟨C.length - 1, by omega⟩
  rw [scanFrom_eq_succ suffix C i s hm,
    scanGo_succ_clike_block suffix C m i s hi h1 h2 h3 h4 h5 h6 h7,
    scanGo_pred suffix C m (i + 2) _ hm (by omega)]

theorem scanFrom_css_block (suffix : String) (C : List Char) (i : Nat) (s : ScanState)
    (hi : i < C.length) (h1 : s.in_line_comment = false) (h2 : s.in_block_comment = false)
    (h3 : s.in_string = false)
    (h4 : ¬ (charAt C i = squote ∨ charAt C i = '"' ∨ charAt C i = backquote))
    (h5 : ¬ (suffix = ".py" ∧ charAt C i = '#'))
    (h6 : ¬ (suffix ∈ cLikeExts ∧ charAt C i = '/' ∧ C[i + 1]? = some '/'))
    (h7 : ¬ (suffix ∈ cLikeExts ∧ charAt C i = '/' ∧ C[i + 1]? = some '*'))
    (h8 : suffix = ".css" ∧ charAt C i = '/' ∧ C[i + 1]? = some '*') :
    scanFrom suffix C i s = scanFrom suffix C (i + 2) { s with in_block_comment := true } := by
  obtain ⟨m, hm⟩ : ∃ m, C.length = m + 1 := ⟨C.length - 1, by omega⟩
  rw [scanFrom_eq_succ suffix C i s hm,
    scanGo_succ_css_block suffix C m i s hi h1 h2 h3 h4 h5 h6 h7 h8,
    scanGo_pred suffix C m (i + 2) _ hm (by omega)]

theorem scanFrom_markup_found (suffix : String) (C : List Char) (i : Nat) (s : ScanState)
    (e : Nat)
    (hi : i < C.length) (h1 : s.in_line_comment = false) (h2 : s.in_block_comment = false)
    (h3 : s.in_string = false)
    (h4 : ¬ (charAt C i = squote ∨ charAt C i = '"' ∨ charAt C i = backquote))
    (h5 : ¬ (suffix = ".py" ∧ charAt C i = '#'))
    (h6 : ¬ (suffix ∈ cLikeExts ∧ charAt C i = '/' ∧ C[i + 1]? = some '/'))
    (h7 : ¬ (suffix ∈ cLikeExts ∧ charAt C i = '/' ∧ C[i + 1]? = some '*'))
    (h8 : ¬ (suffix = ".css" ∧ charAt C i = '/' ∧ C[i + 1]? = some '*'))
    (h9 : suffix ∈ markupExts ∧ (C.drop i).take 4 = ['<', '!', '-', '-'])
    (hfind : strFind C ['-', '-', '>'] (i + 4) = some e) :
    scanFrom suffix C i s = scanFrom suffix C (e + 3) s := by
  obtain ⟨m, hm⟩ : ∃ m, C.length = m + 1 := ⟨C.length - 1, by omega⟩
  rw [scanFrom_eq_succ suffix C i s hm,
    scanGo_succ_markup_found suffix C m i s e hi h1 h2 h3 h4 h5 h6 h7 h8 h9 hfind,
    scanGo_pred suffix C m (e + 3) _ hm (by omega)]

theorem scanFrom_markup_none (suffix : String) (C : List Char) (i : Nat) (s : ScanState)
    (hi : i < C.length) (h1 : s.in_line_comment = false) (h2 : s.in_block_comment = false)
    (h3 : s.in_string = false)
    (h4 : ¬ (charAt C i = squote ∨ charAt C i = '"' ∨ charAt C i = backquote))
    (h5 : ¬ (suffix = ".py" ∧ charAt C i = '#'))
    (h6 : ¬ (suffix ∈ cLikeExts ∧ charAt C i = '/' ∧ C[i + 1]? = some '/'))
    (h7 : ¬ (suffix ∈ cLikeExts ∧ charAt C i = '/' ∧ C[i + 1]? = some '*'))
    (h8 : ¬ (suffix = ".css" ∧ charAt C i = '/' ∧ C[i + 1]? = some '*'))
    (h9 : suffix ∈ markupExts ∧ (C.drop i).take 4 = ['<', '!', '-', '-'])
    (hfind : strFind C ['-', '-', '>'] (i + 4) = none) :
    scanFrom suffix C i s = charAt C i :: scanFrom suffix C (i + 1) s := by
  obtain ⟨m, hm⟩ : ∃ m, C.length = m + 1 := ⟨C.length - 1, by omega⟩
  rw [scanFrom_eq_succ suffix C i s hm,
    scanGo_succ_markup_none suffix C m i s hi h1 h2 h3 h4 h5 h6 h7 h8 h9 hfind,
    scanGo_pred suffix C m (i + 1) _ hm (by omega)]

theorem scanFrom_default (suffix : String) (C : List Char) (i : Nat) (s : ScanState)
    (hi : i < C.length) (h1 : s.in_line_comment = false) (h2 : s.in_block_comment = false)
    (h3 : s.in_string = false)
    (h4 : ¬ (charAt C i = squote ∨ charAt C i = '"' ∨ charAt C i = backquote))
    (h5 : ¬ (suffix = ".py" ∧ charAt C i = '#'))
    (h6 : ¬ (suffix ∈ cLikeExts ∧ charAt C i = '/' ∧ C[i + 1]? = some '/'))
    (h7 : ¬ (suffix ∈ cLikeExts ∧ charAt C i = '/' ∧ C[i + 1]? = some '*'))
    (h8 : ¬ (suffix = ".css" ∧ charAt C i = '/' ∧ C[i + 1]? = some '*'))
    (h9 : ¬ (suffix ∈ markupExts ∧ (C.drop i).take 4 = ['<', '!', '-', '-'])) :
    scanFrom suffix C i s = charAt C i :: scanFrom suffix C (i + 1) s := by
  obtain ⟨m, hm⟩ : ∃ m, C.length = m + 1 := ⟨C.length - 1, by omega⟩
  rw [scanFrom_eq_succ suffix C i s hm,
    scanGo_succ_default suffix C m i s hi h1 h2 h3 h4 h5 h6 h7 h8 h9,
    scanGo_pred suffix C m (i + 1) _ hm (by omega)]

/-! ### Suffix classification facts -/

theorem clike_facts {σ : String} (h : σ ∈ cLikeExts) :
    σ ≠ ".py" ∧ σ ≠ ".css" ∧ σ ∉ markupExts := by
  simp only [cLikeExts] at h
  fin_cases h <;> decide

theorem markup_facts {σ : String} (h : σ ∈ markupExts) :
    σ ≠ ".py" ∧ σ ∉ cLikeExts ∧ σ ≠ ".css" := by
  simp only [markupExts] at h
  fin_cases h <;> decide

theorem getElem?_charAt (C : List Char) (k : Nat) (hk : k < C.length) :
    C[k]? = some (charAt C k) := by
  rw [getElem?_eq_head_drop, drop_cons_self C k hk]
  rfl

theorem prevChar_succ (C : List Char) (k : Nat) : prevChar C (k + 1) = charAt C k := rfl

/-! ### C8: the loop performs at most `length - i` iterations -/

/-- C8: every branch of the loop strictly increases the index, so the scan
from position `i` performs at most `C.length - i` iterations (in particular
`remove_comments_safely`, which starts at `i = 0`, loops at most
`C.length` times and always terminates). -/
theorem C8_iteration_bound : ∀ (suffix : String) (C : List Char) (fuel i : Nat)
    (s : ScanState), scanSteps suffix C fuel i s ≤ C.length - i := by
  intro σ C fuel
  induction fuel with
  | zero =>
    intro i s
    rw [scanSteps.eq_1]
    exact Nat.zero_le _
  | succ n ih =>
    intro i s
    rw [scanSteps.eq_2]
    by_cases hi : i < C.length
    case neg =>
      rw [if_neg hi]
      exact Nat.zero_le _
    rw [if_pos hi]
    have step : ∀ k s', i < k → 1 + scanSteps σ C n k s' ≤ C.length - i := by
      intro k s' hk
      have := ih k s'
      omega
    split_ifs <;>
      first
        | (refine step _ _ ?_ ; omega)
        | (cases hfind : strFind C ['-', '-', '>'] (i + 4) with
           | some e =>
             have hge := strFind_ge hfind
             refine step _ _ ?_
             omega
           | none =>
             refine step _ _ ?_
             omega)

/-! ### C6: unrecognized suffixes leave the text unchanged -/

theorem scanFrom_unrecognized (σ : String) (C : List Char)
    (hpy : σ ≠ ".py") (hcl : σ ∉ cLikeExts) (hcss : σ ≠ ".css") (hmk : σ ∉ markupExts) :
    ∀ n i s, C.length - i ≤ n → s.in_block_comment = false → s.in_line_comment = false →
      scanFrom σ C i s = C.drop i := by
  intro n
  induction n with
  | zero =>
    intro i s hn hb hl
    rw [scanFrom_stop _ _ _ _ (by omega), List.drop_eq_nil_of_le (by omega)]
  | succ n ih =>
    intro i s hn hb hl
    by_cases hi : i < C.length
    case neg =>
      rw [scanFrom_stop _ _ _ _ (by omega), List.drop_eq_nil_of_le (by omega)]
    have h5 : ¬ (σ = ".py" ∧ charAt C i = '#') := fun h => hpy h.1
    have h6 : ¬ (σ ∈ cLikeExts ∧ charAt C i = '/' ∧ C[i + 1]? = some '/') := fun h => hcl h.1
    have h7 : ¬ (σ ∈ cLikeExts ∧ charAt C i = '/' ∧ C[i + 1]? = some '*') := fun h => hcl h.1
    have h8 : ¬ (σ = ".css" ∧ charAt C i = '/' ∧ C[i + 1]? = some '*') := fun h => hcss h.1
    have h9 : ¬ (σ ∈ markupExts ∧ (C.drop i).take 4 = ['<', '!', '-', '-']) := fun h => hmk h.1
    by_cases hs : s.in_string = true
    · rw [scanFrom_string σ C i s hi hl hb hs]
      by_cases hx : charAt C i = s.string_char ∧ prevChar C i ≠ '\\'
      · rw [if_pos hx, ih (i + 1) { s with in_string := false } (by omega) hb hl]
        exact (drop_cons_self C i hi).symm
      · rw [if_neg hx, ih (i + 1) s (by omega) hb hl]
        exact (drop_cons_self C i hi).symm
    simp only [Bool.not_eq_true] at hs
    by_cases hq : charAt C i = squote ∨ charAt C i = '"' ∨ charAt C i = backquote
    · rw [scanFrom_quote σ C i s hi hl hb hs hq,
        ih (i + 1) { s with in_string := true, string_char := charAt C i } (by omega) hb hl]
      exact (drop_cons_self C i hi).symm
    · rw [scanFrom_default σ C i s hi hl hb hs hq h5 h6 h7 h8 h9,
        ih (i + 1) s (by omega) hb hl]
      exact (drop_cons_self C i hi).symm

/-- C6: for a suffix outside the recognized extension classes (`.py`, the
c-like set, `.css`, `.html`/`.htm` — i.e. language tag `none`), the scanner
is the identity on every input text. -/
theorem C6_unrecognized_identity : ∀ (content : List Char) (suffix : String),
    suffix ≠ ".py" → suffix ∉ cLikeExts → suffix ≠ ".css" → suffix ∉ markupExts →
    remove_comments_safely content suffix = content := by
  intro C σ h1 h2 h3 h4
  have h := scanFrom_unrecognized σ C h1 h2 h3 h4 C.length 0 initState (by omega) rfl rfl
  rw [List.drop_zero] at h
  exact h

/-- C6 witness: a `.txt` file full of would-be comment openers is unchanged. -/
theorem C6_witness :
    remove_comments_safely ("x = 1 # y // z /* a */ <!-- b -->".toList) ".txt"
      = ("x = 1 # y // z /* a */ <!-- b -->".toList) :=
  C6_unrecognized_identity _ ".txt" (by decide) (by decide) (by decide) (by decide)

/-! ### C9: the output is a subsequence of the input -/

theorem scanFrom_sublist (σ : String) (C : List Char) :
    ∀ n i s, C.length - i ≤ n → List.Sublist (scanFrom σ C i s) (C.drop i) := by
  intro n
  induction n with
  | zero =>
    intro i s hn
    rw [scanFrom_stop _ _ _ _ (by omega)]
    exact List.nil_sublist _
  | succ n ih =>
    intro i s hn
    by_cases hi : i < C.length
    case neg =>
      rw [scanFrom_stop _ _ _ _ (by omega)]
      exact List.nil_sublist _
    have hdrop := drop_cons_self C i hi
    have step1 : List.Sublist (C.drop (i + 1)) (C.drop i) := drop_sublist_drop C (by omega)
    have step2 : List.Sublist (C.drop (i + 2)) (C.drop i) := drop_sublist_drop C (by omega)
    by_cases h1 : s.in_line_comment = true
    · by_cases h2 : charAt C i = '\n'
      · rw [scanFrom_line_nl σ C i s hi h1 h2, hdrop]
        exact (ih (i + 1) _ (by omega)).cons₂ _
      · rw [scanFrom_line_skip σ C i s hi h1 h2]
        exact (ih (i + 1) _ (by omega)).trans step1
    simp only [Bool.not_eq_true] at h1
    by_cases h2 : s.in_block_comment = true
    · by_cases h3 : charAt C i = '*' ∧ C[i + 1]? = some '/'
      · rw [scanFrom_block_close σ C i s hi h1 h2 h3]
        exact (ih (i + 2) _ (by omega)).trans step2
      · rw [scanFrom_block_skip σ C i s hi h1 h2 h3]
        exact (ih (i + 1) _ (by omega)).trans step1
    simp only [Bool.not_eq_true] at h2
    by_cases h3 : s.in_string = true
    · rw [scanFrom_string σ C i s hi h1 h2 h3, hdrop]
      by_cases h4 : charAt C i = s.string_char ∧ prevChar C i ≠ '\\'
      · rw [if_pos h4]
        exact (ih (i + 1) _ (by omega)).cons₂ _
      · rw [if_neg h4]
        exact (ih (i + 1) _ (by omega)).cons₂ _
    simp only [Bool.not_eq_true] at h3
    by_cases h4 : charAt C i = squote ∨ charAt C i = '"' ∨ charAt C i = backquote
    · rw [scanFrom_quote σ C i s hi h1 h2 h3 h4, hdrop]
      exact (ih (i + 1) _ (by omega)).cons₂ _
    by_cases h5 : σ = ".py" ∧ charAt C i = '#'
    · rw [scanFrom_py_hash σ C i s hi h1 h2 h3 h4 h5]
      exact (ih (i + 1) _ (by omega)).trans step1
    by_cases h6 : σ ∈ cLikeExts ∧ charAt C i = '/' ∧ C[i + 1]? = some '/'
    · rw [scanFrom_clike_line σ C i s hi h1 h2 h3 h4 h5 h6]
      exact (ih (i + 2) _ (by omega)).trans step2
    by_cases h7 : σ ∈ cLikeExts ∧ charAt C i = '/' ∧ C[i + 1]? = some '*'
    · rw [scanFrom_clike_block σ C i s hi h1 h2 h3 h4 h5 h6 h7]
      exact (ih (i + 2) _ (by omega)).trans step2
    by_cases h8 : σ = ".css" ∧ charAt C i = '/' ∧ C[i + 1]? = some '*'
    · rw [scanFrom_css_block σ C i s hi h1 h2 h3 h4 h5 h6 h7 h8]
      exact (ih (i + 2) _ (by omega)).trans step2
    by_cases h9 : σ ∈ markupExts ∧ (C.drop i).take 4 = ['<', '!', '-', '-']
    · cases hfind : strFind C ['-', '-', '>'] (i + 4) with
      | some e =>
        rw [scanFrom_markup_found σ C i s e hi h1 h2 h3 h4 h5 h6 h7 h8 h9 hfind]
        have hge := strFind_ge hfind
        exact (ih (e + 3) _ (by omega)).trans (drop_sublist_drop C (by omega))
      | none =>
        rw [scanFrom_markup_none σ C i s hi h1 h2 h3 h4 h5 h6 h7 h8 h9 hfind, hdrop]
        exact (ih (i + 1) _ (by omega)).cons₂ _
    · rw [scanFrom_default σ C i s hi h1 h2 h3 h4 h5 h6 h7 h8 h9, hdrop]
      exact (ih (i + 1) _ (by omega)).cons₂ _

/-- C9: for every input and suffix, the output of `remove_comments_safely`
is a subsequence of the input (the emitted characters are the input
characters at a strictly increasing sequence of positions), so the output
is never longer than the input. -/
theorem C9_subsequence : ∀ (content : List Char) (suffix : String),
    List.Sublist (remove_comments_safely content suffix) content ∧
    (remove_comments_safely content suffix).length ≤ content.length := by
  intro C σ
  have h : List.Sublist (scanFrom σ C 0 initState) (C.drop 0) :=
    scanFrom_sublist σ C C.length 0 initState (by omega)
  rw [List.drop_zero] at h
  exact ⟨h, h.length_le⟩

/-! ### Slice bridges between the scanner's character tests and `strFind` -/

theorem take_one_drop (C : List Char) (i : Nat) (hi : i < C.length) :
    (C.drop i).take 1 = [charAt C i] := by
  rw [drop_cons_self C i hi]
  rfl

theorem drop_cons_of_getElem? {C : List Char} {i : Nat} {c : Char} (h : C[i]? = some c) :
    ∃ t, C.drop i = c :: t := by
  rw [getElem?_eq_head_drop] at h
  cases hd : C.drop i with
  | nil =>
    rw [hd] at h
    exact Option.noConfusion h
  | cons a t =>
    rw [hd] at h
    simp only [List.head?_cons, Option.some.injEq] at h
    exact ⟨t, by rw [h]⟩

theorem take_two_iff (C : List Char) (i : Nat) (hi : i < C.length) (a b : Char) :
    (C.drop i).take 2 = [a, b] ↔ (charAt C i = a ∧ C[i + 1]? = some b) := by
  constructor
  · intro h
    rw [drop_cons_self C i hi, List.take_succ_cons] at h
    simp only [List.cons.injEq] at h
    obtain ⟨h1, h2⟩ := h
    refine ⟨h1, ?_⟩
    rw [getElem?_eq_head_drop]
    cases hd : C.drop (i + 1) with
    | nil =>
      rw [hd] at h2
      simp at h2
    | cons x t =>
      rw [hd] at h2
      simp only [List.take_succ_cons, List.take_zero, List.cons.injEq, and_true] at h2
      rw [h2]
      rfl
  · rintro ⟨ha, hb⟩
    obtain ⟨t, ht⟩ := drop_cons_of_getElem? hb
    rw [drop_cons_self C i hi, ha, ht]
    rfl

theorem strFind_step1 (C : List Char) (a : Char) (j : Nat) :
    strFind C [a] j =
      if j < C.length then
        if (C.drop j).take 1 = [a] then some j else strFind C [a] (j + 1)
      else none :=
  strFind_step C [a] j

theorem strFind_step2 (C : List Char) (a b : Char) (j : Nat) :
    strFind C [a, b] j =
      if j < C.length then
        if (C.drop j).take 2 = [a, b] then some j else strFind C [a, b] (j + 1)
      else none :=
  strFind_step C [a, b] j

/-! ### C3: what removed comments contribute to the output -/

theorem scanFrom_line_comment (σ : String) (C : List Char) :
    ∀ n i s, C.length - i ≤ n → s.in_line_comment = true →
      scanFrom σ C i s =
        match strFind C ['\n'] i with
        | some k => '\n' :: scanFrom σ C (k + 1) { s with in_line_comment := false }
        | none => [] := by
  intro n
  induction n with
  | zero =>
    intro i s hn hl
    rw [scanFrom_stop _ _ _ _ (by omega), strFind_step1, if_neg (by omega)]
  | succ n ih =>
    intro i s hn hl
    by_cases hi : i < C.length
    case neg =>
      rw [scanFrom_stop _ _ _ _ (by omega), strFind_step1, if_neg (by omega)]
    by_cases hc : charAt C i = '\n'
    · rw [scanFrom_line_nl σ C i s hi hl hc, strFind_step1, if_pos hi,
        if_pos (by rw [take_one_drop C i hi, hc]), hc]
    · rw [scanFrom_line_skip σ C i s hi hl hc, strFind_step1, if_pos hi,
        if_neg (by rw [take_one_drop C i hi]; simp [hc])]
      exact ih (i + 1) s (by omega) hl

theorem scanFrom_block_comment (σ : String) (C : List Char) :
    ∀ n i s, C.length - i ≤ n → s.in_line_comment = false → s.in_block_comment = true →
      scanFrom σ C i s =
        match strFind C ['*', '/'] i with
        | some k => scanFrom σ C (k + 2) { s with in_block_comment := false }
        | none => [] := by
  intro n
  induction n with
  | zero =>
    intro i s hn hl hb
    rw [scanFrom_stop _ _ _ _ (by omega), strFind_step2, if_neg (by omega)]
  | succ n ih =>
    intro i s hn hl hb
    by_cases hi : i < C.length
    case neg =>
      rw [scanFrom_stop _ _ _ _ (by omega), strFind_step2, if_neg (by omega)]
    by_cases hc : charAt C i = '*' ∧ C[i + 1]? = some '/'
    · rw [scanFrom_block_close σ C i s hi hl hb hc, strFind_step2, if_pos hi,
        if_pos ((take_two_iff C i hi '*' '/').2 hc)]
    · rw [scanFrom_block_skip σ C i s hi hl hb hc, strFind_step2, if_pos hi,
        if_neg (fun h => hc ((take_two_iff C i hi '*' '/').1 h))]
      exact ih (i + 1) s (by omega) hl hb

/-- C3: a removed line comment contributes exactly its terminating newline
(and nothing at all when the input ends first), while a removed block
comment contributes no characters whatsoever — scanning resumes right
after the first `*/`, and none of the comment's characters (newlines
included) are emitted. -/
theorem C3_comment_contribution : ∀ (suffix : String) (C : List Char) (i : Nat)
    (s : ScanState),
    (s.in_line_comment = true →
      scanFrom suffix C i s =
        match strFind C ['\n'] i with
        | some k => '\n' :: scanFrom suffix C (k + 1) { s with in_line_comment := false }
        | none => []) ∧
    (s.in_line_comment = false → s.in_block_comment = true →
      scanFrom suffix C i s =
        match strFind C ['*', '/'] i with
        | some k => scanFrom suffix C (k + 2) { s with in_block_comment := false }
        | none => []) :=
  fun σ C i s =>
    ⟨fun hl => scanFrom_line_comment σ C (C.length - i) i s (by omega) hl,
     fun hl hb => scanFrom_block_comment σ C (C.length - i) i s (by omega) hl hb⟩

/-- C3 witness: concrete line-comment and block-comment scans. -/
theorem C3_witness :
    (scanFrom ".py" ("ab\ncd".toList) 0 ⟨false, ' ', false, true⟩
      = match strFind ("ab\ncd".toList) ['\n'] 0 with
        | some k => '\n' :: scanFrom ".py" ("ab\ncd".toList) (k + 1) ⟨false, ' ', false, false⟩
        | none => []) ∧
    (scanFrom ".js" ("ab*/cd".toList) 0 ⟨false, ' ', true, false⟩
      = match strFind ("ab*/cd".toList) ['*', '/'] 0 with
        | some k => scanFrom ".js" ("ab*/cd".toList) (k + 2) ⟨false, ' ', false, false⟩
        | none => []) :=
  ⟨(C3_comment_contribution ".py" ("ab\ncd".toList) 0 ⟨false, ' ', false, true⟩).1 rfl,
   (C3_comment_contribution ".js" ("ab*/cd".toList) 0 ⟨false, ' ', true, false⟩).2 rfl rfl⟩

/-! ### C4: the string-exit condition -/

/-- C4: in string mode the scanner emits the current character and leaves
string mode exactly when that character equals the opening delimiter and
the immediately preceding character of the original input is not a
backslash; in particular a delimiter preceded by a backslash (even an
escaped one, as in `\\"`) does not close the string. -/
theorem C4_string_exit : ∀ (suffix : String) (C : List Char) (i : Nat) (s : ScanState),
    s.in_line_comment = false → s.in_block_comment = false → s.in_string = true →
    i < C.length →
    (scanFrom suffix C i s
      = charAt C i ::
          (if charAt C i = s.string_char ∧ prevChar C i ≠ '\\' then
            scanFrom suffix C (i + 1) { s with in_string := false }
          else
            scanFrom suffix C (i + 1) s)) ∧
    ((if charAt C i = s.string_char ∧ prevChar C i ≠ '\\' then
        { s with in_string := false }
      else s).in_string = false
      ↔ (charAt C i = s.string_char ∧ prevChar C i ≠ '\\')) := by
  intro σ C i s h1 h2 h3 hi
  constructor
  · exact scanFrom_string σ C i s hi h1 h2 h3
  · by_cases hx : charAt C i = s.string_char ∧ prevChar C i ≠ '\\'
    · rw [if_pos hx]
      simp [hx]
    · rw [if_neg hx]
      simp [h3, hx]

/-- C4 witness: a quote preceded by a backslash that is itself escaped
(`\\"`) does not close the string. -/
theorem C4_witness :
    (scanFrom ".py" ("\"a\\\\\"x".toList) 4 ⟨true, '"', false, false⟩
      = charAt ("\"a\\\\\"x".toList) 4 ::
          (if charAt ("\"a\\\\\"x".toList) 4 = '"' ∧ prevChar ("\"a\\\\\"x".toList) 4 ≠ '\\' then
            scanFrom ".py" ("\"a\\\\\"x".toList) 5 ⟨false, '"', false, false⟩
          else
            scanFrom ".py" ("\"a\\\\\"x".toList) 5 ⟨true, '"', false, false⟩)) ∧
    ((if charAt ("\"a\\\\\"x".toList) 4 = '"' ∧ prevChar ("\"a\\\\\"x".toList) 4 ≠ '\\' then
        (⟨false, '"', false, false⟩ : ScanState)
      else ⟨true, '"', false, false⟩).in_string = false
      ↔ (charAt ("\"a\\\\\"x".toList) 4 = '"' ∧ prevChar ("\"a\\\\\"x".toList) 4 ≠ '\\')) :=
  C4_string_exit ".py" ("\"a\\\\\"x".toList) 4 ⟨true, '"', false, false⟩ rfl rfl rfl
    (by decide)

/-! ### C5: unterminated comments -/

/-- C5: an opened block comment with no later `*/` silently consumes to end
of input (the scan from inside the comment emits nothing), whereas a
markup `<!--` with no later `-->` is not treated as a comment at all: the
`<` is emitted as ordinary text and scanning continues from the next
character.  The two concrete scenarios of the spec evaluate accordingly. -/
theorem C5_unterminated : ∀ (suffix : String) (C : List Char) (i : Nat) (s : ScanState),
    (s.in_line_comment = false → s.in_block_comment = true →
      strFind C ['*', '/'] i = none → scanFrom suffix C i s = []) ∧
    (suffix ∈ markupExts → s.in_line_comment = false → s.in_block_comment = false →
      s.in_string = false → (C.drop i).take 4 = ['<', '!', '-', '-'] →
      strFind C ['-', '-', '>'] (i + 4) = none →
      scanFrom suffix C i s = '<' :: scanFrom suffix C (i + 1) s) ∧
    remove_comments_safely ("code /* never closes".toList) ".js" = ("code ".toList) ∧
    remove_comments_safely ("a <!-- never closes".toList) ".html"
      = ("a <!-- never closes".toList) := by
  intro σ C i s
  refine ⟨?_, ?_, by decide, by decide⟩
  · intro hl hb hfind
    rw [scanFrom_block_comment σ C (C.length - i) i s (by omega) hl hb, hfind]
  · intro hσ hl hb hs hslice hfind
    have hi : i < C.length := by
      by_contra hn
      rw [List.drop_eq_nil_of_le (by omega)] at hslice
      simp at hslice
    have hlt : charAt C i = '<' := by
      rw [drop_cons_self C i hi, List.take_succ_cons] at hslice
      simp only [List.cons.injEq] at hslice
      exact hslice.1
    have hq : ¬ (charAt C i = squote ∨ charAt C i = '"' ∨ charAt C i = backquote) := by
      rw [hlt]
      decide
    obtain ⟨hpy, hcl, hcss⟩ := markup_facts hσ
    have h5 : ¬ (σ = ".py" ∧ charAt C i = '#') := fun h => hpy h.1
    have h6 : ¬ (σ ∈ cLikeExts ∧ charAt C i = '/' ∧ C[i + 1]? = some '/') := fun h => hcl h.1
    have h7 : ¬ (σ ∈ cLikeExts ∧ charAt C i = '/' ∧ C[i + 1]? = some '*') := fun h => hcl h.1
    have h8 : ¬ (σ = ".css" ∧ charAt C i = '/' ∧ C[i + 1]? = some '*') := fun h => hcss h.1
    rw [scanFrom_markup_none σ C i s hi hl hb hs hq h5 h6 h7 h8 ⟨hσ, hslice⟩ hfind, hlt]

/-- C5 witness: a scan stuck in an unterminated block comment emits
nothing, and an unterminated `<!--` emits its `<` and continues. -/
theorem C5_witness :
    scanFrom ".js" ("ab".toList) 0 ⟨false, ' ', true, false⟩ = [] ∧
    scanFrom ".html" ("<!-- x".toList) 0 initState
      = '<' :: scanFrom ".html" ("<!-- x".toList) 1 initState :=
  ⟨(C5_unterminated ".js" ("ab".toList) 0 ⟨false, ' ', true, false⟩).1 rfl rfl (by decide),
   (C5_unterminated ".html" ("<!-- x".toList) 0 initState).2.1 (by decide) rfl rfl rfl
     (by decide) (by decide)⟩

/-! ### C2: string-literal content is emitted verbatim -/

/-- Fuel-bounded search for the position at which a string opened with
delimiter `q` closes: the least `j' ≥ j` with `C[j'] = q` and the
preceding original character not a backslash (the scanner's exit test). -/
def strCloseGo (C : List Char) (q : Char) : Nat → Nat → Option Nat
  | 0, _ => none
  | fuel + 1, j =>
    if j < C.length then
      if charAt C j = q ∧ prevChar C j ≠ '\\' then some j
      else strCloseGo C q fuel (j + 1)
    else none

/-- The closing position of a string with delimiter `q`, scanning from `j`
(canonical fuel). -/
def strClose (C : List Char) (q : Char) (j : Nat) : Option Nat :=
  strCloseGo C q C.length j

theorem strCloseGo_irrel (C : List Char) (q : Char) :
    ∀ fuel fuel' j, C.length ≤ j + fuel → C.length ≤ j + fuel' →
      strCloseGo C q fuel j = strCloseGo C q fuel' j := by
  intro fuel
  induction fuel with
  | zero =>
    intro fuel' j h h'
    cases fuel' with
    | zero => rfl
    | succ m =>
      simp only [strCloseGo]
      rw [if_neg (by omega)]
  | succ n ih =>
    intro fuel' j h h'
    cases fuel' with
    | zero =>
      simp only [strCloseGo]
      rw [if_neg (by omega)]
    | succ m =>
      simp only [strCloseGo]
      by_cases hj : j < C.length
      · rw [if_pos hj, if_pos hj]
        by_cases hmatch : charAt C j = q ∧ prevChar C j ≠ '\\'
        · rw [if_pos hmatch, if_pos hmatch]
        · rw [if_neg hmatch, if_neg hmatch]
          exact ih m (j + 1) (by omega) (by omega)
      · rw [if_neg hj, if_neg hj]

theorem strClose_step (C : List Char) (q : Char) (j : Nat) :
    strClose C q j =
      if j < C.length then
        if charAt C j = q ∧ prevChar C j ≠ '\\' then some j else strClose C q (j + 1)
      else none := by
  by_cases hj : j < C.length
  · obtain ⟨m, hm⟩ : ∃ m, C.length = m + 1 := ⟨C.length - 1, by omega⟩
    rw [if_pos hj]
    have h1 : strClose C q j = strCloseGo C q (m + 1) j := by
      unfold strClose
      rw [hm]
    rw [h1]
    simp only [strCloseGo]
    rw [if_pos hj]
    by_cases hmatch : charAt C j = q ∧ prevChar C j ≠ '\\'
    · rw [if_pos hmatch, if_pos hmatch]
    · rw [if_neg hmatch, if_neg hmatch]
      rw [strCloseGo_irrel C q m C.length (j + 1) (by omega) (by omega)]
      rfl
  · rw [if_neg hj]
    cases hC : C.length with
    | zero =>
      unfold strClose
      rw [hC]
      rfl
    | succ m =>
      unfold strClose
      rw [hC]
      simp only [strCloseGo]
      rw [if_neg hj]

theorem strClose_ge_aux (C : List Char) (q : Char) :
    ∀ n j e, C.length - j ≤ n → strClose C q j = some e → j ≤ e := by
  intro n
  induction n with
  | zero =>
    intro j e h hfind
    rw [strClose_step, if_neg (by omega)] at hfind
    exact Option.noConfusion hfind
  | succ m ih =>
    intro j e h hfind
    rw [strClose_step] at hfind
    by_cases hj : j < C.length
    · rw [if_pos hj] at hfind
      by_cases hmatch : charAt C j = q ∧ prevChar C j ≠ '\\'
      · rw [if_pos hmatch] at hfind
        injection hfind with he
        omega
      · rw [if_neg hmatch] at hfind
        have := ih (j + 1) e (by omega) hfind
        omega
    · rw [if_neg hj] at hfind
      exact Option.noConfusion hfind

theorem strClose_ge {C : List Char} {q : Char} {j e : Nat}
    (h : strClose C q j = some e) : j ≤ e :=
  strClose_ge_aux C q (C.length - j) j e (by omega) h

theorem scanFrom_string_span (σ : String) (C : List Char) :
    ∀ n i s, C.length - i ≤ n → s.in_line_comment = false → s.in_block_comment = false →
      s.in_string = true →
      scanFrom σ C i s =
        match strClose C s.string_char i with
        | some k =>
            (C.drop i).take (k + 1 - i)
              ++ scanFrom σ C (k + 1) { s with in_string := false }
        | none => C.drop i := by
  intro n
  induction n with
  | zero =>
    intro i s hn h1 h2 h3
    rw [scanFrom_stop _ _ _ _ (by omega), strClose_step, if_neg (by omega),
      List.drop_eq_nil_of_le (by omega)]
  | succ n ih =>
    intro i s hn h1 h2 h3
    by_cases hi : i < C.length
    case neg =>
      rw [scanFrom_stop _ _ _ _ (by omega), strClose_step, if_neg (by omega),
        List.drop_eq_nil_of_le (by omega)]
    rw [scanFrom_string σ C i s hi h1 h2 h3]
    by_cases hx : charAt C i = s.string_char ∧ prevChar C i ≠ '\\'
    · rw [if_pos hx, strClose_step, if_pos hi, if_pos hx]
      show charAt C i :: scanFrom σ C (i + 1) { s with in_string := false }
        = (C.drop i).take (i + 1 - i) ++ scanFrom σ C (i + 1) { s with in_string := false }
      have ht : (C.drop i).take (i + 1 - i) = [charAt C i] := by
        have hone : i + 1 - i = 1 := by omega
        rw [hone, take_one_drop C i hi]
      rw [ht]
      rfl
    · rw [if_neg hx, strClose_step, if_pos hi, if_neg hx,
        ih (i + 1) s (by omega) h1 h2 h3]
      cases hcl : strClose C s.string_char (i + 1) with
      | some k =>
        have hk := strClose_ge hcl
        show charAt C i ::
            ((C.drop (i + 1)).take (k + 1 - (i + 1))
              ++ scanFrom σ C (k + 1) { s with in_string := false })
          = (C.drop i).take (k + 1 - i) ++ scanFrom σ C (k + 1) { s with in_string := false }
        rw [drop_cons_self C i hi]
        have hsucc : k + 1 - i = (k + 1 - (i + 1)) + 1 := by omega
        rw [hsucc, List.take_succ_cons]
        rfl
      | none =>
        show charAt C i :: C.drop (i + 1) = C.drop i
        exact (drop_cons_self C i hi).symm

/-- C2: from string mode every character is emitted unconditionally until
the exit position, so the whole string segment — comment-opener sequences
included — appears verbatim and contiguously in the output; if the string
never closes, the entire rest of the input is emitted verbatim. -/
theorem C2_string_verbatim : ∀ (suffix : String) (C : List Char) (i : Nat) (s : ScanState),
    s.in_line_comment = false → s.in_block_comment = false → s.in_string = true →
    scanFrom suffix C i s =
      match strClose C s.string_char i with
      | some k =>
          (C.drop i).take (k + 1 - i)
            ++ scanFrom suffix C (k + 1) { s with in_string := false }
      | none => C.drop i :=
  fun σ C i s h1 h2 h3 =>
    scanFrom_string_span σ C (C.length - i) i s (by omega) h1 h2 h3

/-- C2 witness: a string whose body contains `//` is copied verbatim up to
its closing quote. -/
theorem C2_witness :
    scanFrom ".js" ("\"a//b\"c".toList) 1 ⟨true, '"', false, false⟩
      = match strClose ("\"a//b\"c".toList) '"' 1 with
        | some k =>
            (("\"a//b\"c".toList).drop 1).take (k + 1 - 1)
              ++ scanFrom ".js" ("\"a//b\"c".toList) (k + 1) ⟨false, '"', false, false⟩
        | none => ("\"a//b\"c".toList).drop 1 :=
  C2_string_verbatim ".js" ("\"a//b\"c".toList) 1 ⟨true, '"', false, false⟩ rfl rfl rfl

/-! ### C7: the file pipeline skips invalid results before touching disk -/

/-- The per-file outcome strings of `process_file` (source lines 152-170). -/
inductive Outcome where
  | ok : Outcome
  | dryRun : Outcome
  | skippedInvalidSyntax : Outcome
  | error : Outcome
deriving DecidableEq

/-- The on-disk state relevant to one `process_file` call: the content at
`file_path` and the content (if any) at the `.bak` sibling. -/
structure FileSys where
  main : List Char
  bak : Option (List Char)
deriving DecidableEq

/-- `process_file` (source lines 152-170) with the filesystem made explicit
state and the external syntax check (`validate_syntax`, an external-tool
invocation) abstracted as a boolean `validator` on the cleaned content:
clean, then — in source order — skip on failed validation, report dry
runs, copy the original to `.bak` when backup is on, and finally
overwrite `main` with the cleaned content.  The exception path (line 169)
is outside this model. -/
def process_file (suffix : String) (fs : FileSys) (backup validate dry_run : Bool)
    (validator : List Char → Bool) : Outcome × FileSys :=
  if validate ∧ validator (remove_comments_safely fs.main suffix) = false then
    (Outcome.skippedInvalidSyntax, fs)
  else if dry_run then
    (Outcome.dryRun, fs)
  else if backup then
    (Outcome.ok, { main := remove_comments_safely fs.main suffix, bak := some fs.main })
  else
    (Outcome.ok, { main := remove_comments_safely fs.main suffix, bak := fs.bak })

/-- The run over all selected files (source lines 207-217): one outcome per
file, each file processed independently. -/
def run_all (jobs : List (String × FileSys)) (backup validate dry_run : Bool)
    (validator : List Char → Bool) : List (Outcome × FileSys) :=
  jobs.map (fun p => process_file p.1 p.2 backup validate dry_run validator)

/-- C7: with validation enabled, a file whose cleaned content fails the
syntax check yields the skipped-invalid-syntax outcome and leaves the
filesystem exactly as it was — no backup is made and no write happens —
and a run still produces one outcome for every file. -/
theorem C7_skip_invalid : ∀ (suffix : String) (fs : FileSys) (backup dry_run : Bool)
    (validator : List Char → Bool),
    validator (remove_comments_safely fs.main suffix) = false →
    process_file suffix fs backup true dry_run validator
      = (Outcome.skippedInvalidSyntax, fs) ∧
    ∀ jobs : List (String × FileSys),
      (run_all jobs backup true dry_run validator).length = jobs.length := by
  intro σ fs b d v hv
  constructor
  · unfold process_file
    rw [if_pos ⟨rfl, hv⟩]
  · intro jobs
    unfold run_all
    exact List.length_map _ _

/-- C7 witness: a concrete rejected file is reported skipped with the
filesystem untouched. -/
theorem C7_witness :
    process_file ".py" ⟨("x = 1 # c".toList), none⟩ true true false (fun _ => false)
      = (Outcome.skippedInvalidSyntax, ⟨("x = 1 # c".toList), none⟩) ∧
    ∀ jobs : List (String × FileSys),
      (run_all jobs true true false (fun _ => false)).length = jobs.length :=
  C7_skip_invalid ".py" ⟨("x = 1 # c".toList), none⟩ true false (fun _ => false) rfl

/-! ### C1: idempotence — simulation of a second pass over the output -/

/-- States reachable by the scanner have at most one mode flag set. -/
def WFState (s : ScanState) : Prop :=
  (s.in_line_comment = true → s.in_block_comment = false ∧ s.in_string = false) ∧
  (s.in_block_comment = true → s.in_string = false)

/-- Relation between a first-pass configuration `(C, i, s)` and a
second-pass configuration `(L, j, t)`: when the first pass is in a comment
mode or in code, the second pass is in code mode; when the first pass is
in string mode, so is the second pass, with the same delimiter and the
same previously scanned character. -/
def match_states (C : List Char) (i : Nat) (s : ScanState) (L : List Char) (j : Nat)
    (t : ScanState) : Prop :=
  if s.in_line_comment = true ∨ s.in_block_comment = true ∨ s.in_string = false then
    t.in_string = false ∧ t.in_block_comment = false ∧ t.in_line_comment = false
  else
    t.in_string = true ∧ t.in_block_comment = false ∧ t.in_line_comment = false ∧
      t.string_char = s.string_char ∧ 1 ≤ i ∧ 1 ≤ j ∧ prevChar L j = prevChar C i

theorem match_states_code {C : List Char} {i : Nat} {s : ScanState} {L : List Char}
    {j : Nat} {t : ScanState}
    (hs : s.in_line_comment = true ∨ s.in_block_comment = true ∨ s.in_string = false)
    (h : t.in_string = false ∧ t.in_block_comment = false ∧ t.in_line_comment = false) :
    match_states C i s L j t := by
  unfold match_states
  rwa [if_pos hs]

theorem match_states_code_elim {C : List Char} {i : Nat} {s : ScanState} {L : List Char}
    {j : Nat} {t : ScanState}
    (hs : s.in_line_comment = true ∨ s.in_block_comment = true ∨ s.in_string = false)
    (h : match_states C i s L j t) :
    t.in_string = false ∧ t.in_block_comment = false ∧ t.in_line_comment = false := by
  unfold match_states at h
  rwa [if_pos hs] at h

theorem match_states_string {C : List Char} {i : Nat} {s : ScanState} {L : List Char}
    {j : Nat} {t : ScanState}
    (h1 : s.in_line_comment = false) (h2 : s.in_block_comment = false)
    (h3 : s.in_string = true)
    (h : t.in_string = true ∧ t.in_block_comment = false ∧ t.in_line_comment = false ∧
      t.string_char = s.string_char ∧ 1 ≤ i ∧ 1 ≤ j ∧ prevChar L j = prevChar C i) :
    match_states C i s L j t := by
  unfold match_states
  rwa [if_neg (by simp [h1, h2, h3])]

theorem match_states_string_elim {C : List Char} {i : Nat} {s : ScanState} {L : List Char}
    {j : Nat} {t : ScanState}
    (h1 : s.in_line_comment = false) (h2 : s.in_block_comment = false)
    (h3 : s.in_string = true)
    (h : match_states C i s L j t) :
    t.in_string = true ∧ t.in_block_comment = false ∧ t.in_line_comment = false ∧
      t.string_char = s.string_char ∧ 1 ≤ i ∧ 1 ≤ j ∧ prevChar L j = prevChar C i := by
  unfold match_states at h
  rwa [if_neg (by simp [h1, h2, h3])] at h

theorem wf_of_flags {s : ScanState} (hb : s.in_block_comment = false)
    (hl : s.in_line_comment = false) : WFState s :=
  ⟨fun h => absurd h (by simp [hl]), fun h => absurd h (by simp [hb])⟩

theorem wf_line_state {s : ScanState} (hb : s.in_block_comment = false)
    (hs : s.in_string = false) : WFState { s with in_line_comment := true } :=
  ⟨fun _ => ⟨hb, hs⟩, fun h => absurd h (by simp [hb])⟩

theorem wf_block_state {s : ScanState} (hl : s.in_line_comment = false)
    (hs : s.in_string = false) : WFState { s with in_block_comment := true } :=
  ⟨fun h => absurd h (by simp [hl]), fun _ => hs⟩

theorem wf_string_state {s : ScanState} (hl : s.in_line_comment = false)
    (hb : s.in_block_comment = false) (c : Char) :
    WFState { s with in_string := true, string_char := c } :=
  ⟨fun h => absurd h (by simp [hl]), fun h => absurd h (by simp [hb])⟩

/-- In a c-like file, a code-mode scan whose current character is neither
`/` nor `*` cannot start its output with `/` or `*`: the first emitted
character is the current one (possibly a quote). -/
theorem scanFrom_head_code (σ : String) (C : List Char) (i : Nat) (s : ScanState)
    (hσ : σ ∈ cLikeExts)
    (h1 : s.in_line_comment = false) (h2 : s.in_block_comment = false)
    (h3 : s.in_string = false)
    (hc : ∀ _ : i < C.length, charAt C i ≠ '/' ∧ charAt C i ≠ '*') :
    (scanFrom σ C i s).head? ≠ some '/' ∧ (scanFrom σ C i s).head? ≠ some '*' := by
  by_cases hi : i < C.length
  case neg =>
    rw [scanFrom_stop _ _ _ _ (by omega)]
    exact ⟨by simp, by simp⟩
  obtain ⟨hsl, hst⟩ := hc hi
  obtain ⟨hpy, hcssx, hmkx⟩ := clike_facts hσ
  by_cases h4 : charAt C i = squote ∨ charAt C i = '"' ∨ charAt C i = backquote
  · rw [scanFrom_quote σ C i s hi h1 h2 h3 h4]
    exact ⟨by simp [hsl], by simp [hst]⟩
  · have h5 : ¬ (σ = ".py" ∧ charAt C i = '#') := fun h => hpy h.1
    have h6 : ¬ (σ ∈ cLikeExts ∧ charAt C i = '/' ∧ C[i + 1]? = some '/') := fun h => hsl h.2.1
    have h7 : ¬ (σ ∈ cLikeExts ∧ charAt C i = '/' ∧ C[i + 1]? = some '*') := fun h => hsl h.2.1
    have h8 : ¬ (σ = ".css" ∧ charAt C i = '/' ∧ C[i + 1]? = some '*') := fun h => hcssx h.1
    have h9 : ¬ (σ ∈ markupExts ∧ (C.drop i).take 4 = ['<', '!', '-', '-']) := fun h => hmkx h.1
    rw [scanFrom_default σ C i s hi h1 h2 h3 h4 h5 h6 h7 h8 h9]
    exact ⟨by simp [hsl], by simp [hst]⟩

/-- Second-pass simulation: for a python or c-like suffix, scanning a list
whose suffix from `j` equals the first-pass output (in a matching state)
reproduces that output. -/
theorem rescan (σ : String) (hσ : σ = ".py" ∨ σ ∈ cLikeExts) (C : List Char) :
    ∀ n i s L j t, C.length - i ≤ n → WFState s → match_states C i s L j t →
      L.drop j = scanFrom σ C i s →
      scanFrom σ L j t = scanFrom σ C i s := by
  have hcss : σ ≠ ".css" := by
    rcases hσ with rfl | h
    · decide
    · exact (clike_facts h).2.1
  have hmk : σ ∉ markupExts := by
    rcases hσ with rfl | h
    · decide
    · exact (clike_facts h).2.2
  intro n
  induction n with
  | zero =>
    intro i s L j t hn hwf hms hdrop
    rw [scanFrom_stop σ C i s (by omega)] at hdrop ⊢
    by_cases hj : j < L.length
    · rw [drop_cons_self L j hj] at hdrop
      exact absurd hdrop (by simp)
    · exact scanFrom_stop σ L j t (by omega)
  | succ n ih =>
    intro i s L j t hn hwf hms hdrop
    by_cases hi : i < C.length
    case neg =>
      rw [scanFrom_stop σ C i s (by omega)] at hdrop ⊢
      by_cases hj : j < L.length
      · rw [drop_cons_self L j hj] at hdrop
        exact absurd hdrop (by simp)
      · exact scanFrom_stop σ L j t (by omega)
    by_cases hline : s.in_line_comment = true
    · obtain ⟨hbf, hsf⟩ := hwf.1 hline
      obtain ⟨ht1, ht2, ht3⟩ := match_states_code_elim (Or.inl hline) hms
      by_cases hc : charAt C i = '\n'
      · rw [scanFrom_line_nl σ C i s hi hline hc] at hdrop ⊢
        have hj : j < L.length := lt_length_of_drop hdrop
        have hcharL : charAt L j = charAt C i := charAt_of_drop hdrop
        have hdrop' := drop_succ_of_drop hdrop
        have hqL : ¬ (charAt L j = squote ∨ charAt L j = '"' ∨ charAt L j = backquote) := by
          rw [hcharL, hc]
          decide
        have h5L : ¬ (σ = ".py" ∧ charAt L j = '#') := by
          rw [hcharL, hc]
          rintro ⟨-, hx⟩
          exact absurd hx (by decide)
        have h6L : ¬ (σ ∈ cLikeExts ∧ charAt L j = '/' ∧ L[j + 1]? = some '/') := by
          rw [hcharL, hc]
          rintro ⟨-, hx, -⟩
          exact absurd hx (by decide)
        have h7L : ¬ (σ ∈ cLikeExts ∧ charAt L j = '/' ∧ L[j + 1]? = some '*') := by
          rw [hcharL, hc]
          rintro ⟨-, hx, -⟩
          exact absurd hx (by decide)
        have h8L : ¬ (σ = ".css" ∧ charAt L j = '/' ∧ L[j + 1]? = some '*') :=
          fun h => hcss h.1
        have h9L : ¬ (σ ∈ markupExts ∧ (L.drop j).take 4 = ['<', '!', '-', '-']) :=
          fun h => hmk h.1
        rw [scanFrom_default σ L j t hj ht3 ht2 ht1 hqL h5L h6L h7L h8L h9L, hcharL]
        exact congrArg _
          (ih (i + 1) { s with in_line_comment := false } L (j + 1) t (by omega)
            (wf_of_flags hbf rfl)
            (match_states_code (Or.inr (Or.inr hsf)) ⟨ht1, ht2, ht3⟩) hdrop')
      · rw [scanFrom_line_skip σ C i s hi hline hc] at hdrop ⊢
        exact ih (i + 1) s L j t (by omega) hwf
          (match_states_code (Or.inl hline) ⟨ht1, ht2, ht3⟩) hdrop
    simp only [Bool.not_eq_true] at hline
    by_cases hblock : s.in_block_comment = true
    · have hsf : s.in_string = false := hwf.2 hblock
      obtain ⟨ht1, ht2, ht3⟩ := match_states_code_elim (Or.inr (Or.inl hblock)) hms
      by_cases hc : charAt C i = '*' ∧ C[i + 1]? = some '/'
      · rw [scanFrom_block_close σ C i s hi hline hblock hc] at hdrop ⊢
        exact ih (i + 2) { s with in_block_comment := false } L j t (by omega)
          (wf_of_flags rfl hline)
          (match_states_code (Or.inr (Or.inr hsf)) ⟨ht1, ht2, ht3⟩) hdrop
      · rw [scanFrom_block_skip σ C i s hi hline hblock hc] at hdrop ⊢
        exact ih (i + 1) s L j t (by omega) hwf
          (match_states_code (Or.inr (Or.inl hblock)) ⟨ht1, ht2, ht3⟩) hdrop
    simp only [Bool.not_eq_true] at hblock
    by_cases hstr : s.in_string = true
    · obtain ⟨ht1, ht2, ht3, htc, hi1, hj1, hprev⟩ :=
        match_states_string_elim hline hblock hstr hms
      rw [scanFrom_string σ C i s hi hline hblock hstr] at hdrop ⊢
      have hj : j < L.length := lt_length_of_drop hdrop
      have hcharL : charAt L j = charAt C i := charAt_of_drop hdrop
      have hdrop' := drop_succ_of_drop hdrop
      rw [scanFrom_string σ L j t hj ht3 ht2 ht1, hcharL]
      by_cases hx : charAt C i = s.string_char ∧ prevChar C i ≠ '\\'
      · have hx2 : charAt C i = t.string_char ∧ prevChar L j ≠ '\\' := by
          rw [htc, hprev]
          exact hx
        rw [if_pos hx2, if_pos hx]
        rw [if_pos hx] at hdrop'
        exact congrArg _
          (ih (i + 1) { s with in_string := false } L (j + 1) { t with in_string := false }
            (by omega) (wf_of_flags hblock hline)
            (match_states_code (Or.inr (Or.inr rfl)) ⟨rfl, ht2, ht3⟩) hdrop')
      · have hx2 : ¬ (charAt C i = t.string_char ∧ prevChar L j ≠ '\\') := by
          rw [htc, hprev]
          exact hx
        rw [if_neg hx2, if_neg hx]
        rw [if_neg hx] at hdrop'
        exact congrArg _
          (ih (i + 1) s L (j + 1) t (by omega) hwf
            (match_states_string hline hblock hstr
              ⟨ht1, ht2, ht3, htc, by omega, by omega, by
                rw [prevChar_succ, prevChar_succ]
                exact hcharL⟩) hdrop')
    simp only [Bool.not_eq_true] at hstr
    obtain ⟨ht1, ht2, ht3⟩ := match_states_code_elim (Or.inr (Or.inr hstr)) hms
    by_cases hq : charAt C i = squote ∨ charAt C i = '"' ∨ charAt C i = backquote
    · rw [scanFrom_quote σ C i s hi hline hblock hstr hq] at hdrop ⊢
      have hj : j < L.length := lt_length_of_drop hdrop
      have hcharL : charAt L j = charAt C i := charAt_of_drop hdrop
      have hdrop' := drop_succ_of_drop hdrop
      have hqL : charAt L j = squote ∨ charAt L j = '"' ∨ charAt L j = backquote := by
        rw [hcharL]
        exact hq
      rw [scanFrom_quote σ L j t hj ht3 ht2 ht1 hqL, hcharL]
      exact congrArg _
        (ih (i + 1) { s with in_string := true, string_char := charAt C i } L (j + 1)
          { t with in_string := true, string_char := charAt C i }
          (by omega) (wf_string_state hline hblock _)
          (match_states_string hline hblock rfl
            ⟨rfl, ht2, ht3, rfl, by omega, by omega, by
              rw [prevChar_succ, prevChar_succ]
              exact hcharL⟩) hdrop')
    by_cases hpy : σ = ".py" ∧ charAt C i = '#'
    · rw [scanFrom_py_hash σ C i s hi hline hblock hstr hq hpy] at hdrop ⊢
      exact ih (i + 1) { s with in_line_comment := true } L j t (by omega)
        (wf_line_state hblock hstr)
        (match_states_code (Or.inl rfl) ⟨ht1, ht2, ht3⟩) hdrop
    by_cases h6 : σ ∈ cLikeExts ∧ charAt C i = '/' ∧ C[i + 1]? = some '/'
    · rw [scanFrom_clike_line σ C i s hi hline hblock hstr hq hpy h6] at hdrop ⊢
      exact ih (i + 2) { s with in_line_comment := true } L j t (by omega)
        (wf_line_state hblock hstr)
        (match_states_code (Or.inl rfl) ⟨ht1, ht2, ht3⟩) hdrop
    by_cases h7 : σ ∈ cLikeExts ∧ charAt C i = '/' ∧ C[i + 1]? = some '*'
    · rw [scanFrom_clike_block σ C i s hi hline hblock hstr hq hpy h6 h7] at hdrop ⊢
      exact ih (i + 2) { s with in_block_comment := true } L j t (by omega)
        (wf_block_state hline hstr)
        (match_states_code (Or.inr (Or.inl rfl)) ⟨ht1, ht2, ht3⟩) hdrop
    · have h8 : ¬ (σ = ".css" ∧ charAt C i = '/' ∧ C[i + 1]? = some '*') := fun h => hcss h.1
      have h9 : ¬ (σ ∈ markupExts ∧ (C.drop i).take 4 = ['<', '!', '-', '-']) :=
        fun h => hmk h.1
      rw [scanFrom_default σ C i s hi hline hblock hstr hq hpy h6 h7 h8 h9] at hdrop ⊢
      have hj : j < L.length := lt_length_of_drop hdrop
      have hcharL : charAt L j = charAt C i := charAt_of_drop hdrop
      have hdrop' := drop_succ_of_drop hdrop
      have hqL : ¬ (charAt L j = squote ∨ charAt L j = '"' ∨ charAt L j = backquote) := by
        rw [hcharL]
        exact hq
      have h5L : ¬ (σ = ".py" ∧ charAt L j = '#') := by
        rw [hcharL]
        exact hpy
      have hL1 : L[j + 1]? = (scanFrom σ C (i + 1) s).head? := by
        rw [getElem?_eq_head_drop, hdrop']
      have hhead : σ ∈ cLikeExts → charAt C i = '/' →
          (scanFrom σ C (i + 1) s).head? ≠ some '/' ∧
            (scanFrom σ C (i + 1) s).head? ≠ some '*' := by
        intro hσc hsl
        refine scanFrom_head_code σ C (i + 1) s hσc hline hblock hstr ?_
        intro hi1
        constructor
        · intro hcon
          exact h6 ⟨hσc, hsl, by rw [getElem?_charAt C (i + 1) hi1, hcon]⟩
        · intro hcon
          exact h7 ⟨hσc, hsl, by rw [getElem?_charAt C (i + 1) hi1, hcon]⟩
      have h6L : ¬ (σ ∈ cLikeExts ∧ charAt L j = '/' ∧ L[j + 1]? = some '/') := by
        rintro ⟨hσc, hsl, hnext⟩
        rw [hL1] at hnext
        exact (hhead hσc (hcharL.symm.trans hsl)).1 hnext
      have h7L : ¬ (σ ∈ cLikeExts ∧ charAt L j = '/' ∧ L[j + 1]? = some '*') := by
        rintro ⟨hσc, hsl, hnext⟩
        rw [hL1] at hnext
        exact (hhead hσc (hcharL.symm.trans hsl)).2 hnext
      have h8L : ¬ (σ = ".css" ∧ charAt L j = '/' ∧ L[j + 1]? = some '*') :=
        fun h => hcss h.1
      have h9L : ¬ (σ ∈ markupExts ∧ (L.drop j).take 4 = ['<', '!', '-', '-']) :=
        fun h => hmk h.1
      rw [scanFrom_default σ L j t hj ht3 ht2 ht1 hqL h5L h6L h7L h8L h9L, hcharL]
      exact congrArg _
        (ih (i + 1) s L (j + 1) t (by omega) hwf
          (match_states_code (Or.inr (Or.inr hstr)) ⟨ht1, ht2, ht3⟩) hdrop')

/-- C1 (amended): the scanner is idempotent for the python and c-like
language tags — cleaning an already-cleaned text changes nothing. -/
theorem C1_idempotent_py_clike : ∀ (content : List Char) (suffix : String),
    suffix = ".py" ∨ suffix ∈ cLikeExts →
    remove_comments_safely (remove_comments_safely content suffix) suffix
      = remove_comments_safely content suffix := by
  intro C σ hσ
  exact rescan σ hσ C C.length 0 initState (remove_comments_safely C σ) 0 initState
    (by omega)
    ⟨fun h => absurd h (by decide), fun h => absurd h (by decide)⟩
    (match_states_code (Or.inr (Or.inr rfl)) ⟨rfl, rfl, rfl⟩)
    (by rw [List.drop_zero]; rfl)

/-- C1 counterexample: the scanner is not idempotent for the css and markup
tags.  For css, removing a block comment can splice a new `/*` together
(`a//* c */* b` cleans to `a/* b`, which cleans again to `a`); for markup,
removing a `<!-- -->` can splice a new `<!--` together. -/
theorem C1_counterexample :
    ¬ (remove_comments_safely
          (remove_comments_safely ("a//* c */* b".toList) ".css") ".css"
        = remove_comments_safely ("a//* c */* b".toList) ".css") ∧
    ¬ (remove_comments_safely
          (remove_comments_safely ("<<!--x-->!-- y -->z".toList) ".html") ".html"
        = remove_comments_safely ("<<!--x-->!-- y -->z".toList) ".html") := by
  constructor <;> decide

/-- C1 witness: idempotence on a concrete c-like input with a line comment,
a block comment and a string. -/
theorem C1_witness :
    remove_comments_safely
        (remove_comments_safely ("a = \"//s\"; // note\nb = 2; /* x */ c".toList) ".js")
        ".js"
      = remove_comments_safely ("a = \"//s\"; // note\nb = 2; /* x */ c".toList) ".js" :=
  C1_idempotent_py_clike ("a = \"//s\"; // note\nb = 2; /* x */ c".toList) ".js"
    (Or.inr (by decide))

example :
    remove_comments_safely ("x = 1  # set x\ny = 2".toList) ".py"
      = ("x = 1  \ny = 2".toList) := by decide

example :
    remove_comments_safely ("a = \"//not a comment\"; // real".toList) ".js"
      = ("a = \"//not a comment\"; ".toList) := by decide

example :
    remove_comments_safely ("/* drop\nme */code".toList) ".js" = ("code".toList) := by
  decide

example :
    remove_comments_safely ("<!-- hi --><p>ok</p>".toList) ".html"
      = ("<p>ok</p>".toList) := by decide

example :
    remove_comments_safely ("code /* never closes".toList) ".js" = ("code ".toList) := by
  decide

example :
    remove_comments_safely ("a//* c */* b".toList) ".css" = ("a/* b".toList) := by
  decide

example :
    remove_comments_safely ("a/* b".toList) ".css" = ("a".toList) := by decide

example :
    remove_comments_safely ("<<!--x-->!-- y -->z".toList) ".html"
      = ("<!-- y -->z".toList) := by decide

example :
    remove_comments_safely ("<!-- y -->z".toList) ".html" = ("z".toList) := by decide

end CodeCleaner
